import Mathlib

/-!
Verification development for the PortfolioAIAgent repository.

The Python sources are shallowly embedded:
- prices are rationals (ℚ); a value that is missing, or whose numeric
  coercion with pandas `to_numeric errors=coerce` fails, is `none`;
- the network primitives `_fetch_price_yahoo` / `_fetch_price_google` are
  modelled by oracles giving the outcome of each invocation;
- dataframes become lists of records, the price dict becomes an
  association list.
-/

namespace PortfolioAI

/-! ### Configuration, from src/config.py -/

def PRICE_SOURCES_yahoo_retry_count : Nat := 3

def PRICE_SOURCES_yahoo_retry_delay : Nat := 1

def PRICE_SOURCES_google_retry_count : Nat := 2

def PRICE_SOURCES_google_retry_delay : Nat := 1

def FEATURE_FLAGS_enable_fallback_sources : Bool := true

def FEATURE_FLAGS_validate_prices : Bool := true

def PRICE_VALIDATION_min_price : ℚ := 0

def PRICE_VALIDATION_max_price : ℚ := 1000000

/-! ### Price fetcher, from src/agents/price_fetcher.py

`_fetch_price_yahoo` returns a pair: the fetched price and the label
"yahoo" on success, and a pair of Nones on failure (empty history or an
exception).  The oracle argument `y` is the outcome of the single
invocation the fetcher makes: `some v` when the call produced the float
`v`, `none` when it produced nothing or raised. -/

def yahooFetch (y : Option ℚ) : Option ℚ × Option String :=
  (y, y.map fun _ => "yahoo")

/-- `_fetch_price_google`: same result shape with label "google". -/
def googleFetch (g : Option ℚ) : Option ℚ × Option String :=
  (g, g.map fun _ => "google")

/-- The body of the per-symbol loop of `fetch_prices`: try Yahoo first;
if the returned price `is None`, try Google; then the price is stored in
the dict only when it is truthy (Python `if price:`, so a price of 0.0
is falsy and dropped). -/
def fetchOne (y g : Option ℚ) : Option (ℚ × String) :=
  let pr := yahooFetch y
  let pr := if pr.1 = none then googleFetch g else pr
  match pr.1 with
  | none => none
  | some v => if v = 0 then none else some (v, pr.2.getD "")

/-- `fetch_prices symbols`: one pass over the symbols, building the
mapping symbol → price and source label; a symbol for which `fetchOne`
yields nothing is simply not added to the mapping. -/
def fetchPrices (symbols : List String)
    (yOracle gOracle : String → Option ℚ) : List (String × (ℚ × String)) :=
  symbols.filterMap fun s => (fetchOne (yOracle s) (gOracle s)).map fun pr => (s, pr)

/-- `fetch_prices` when each network primitive is modelled by the stream
of outcomes of its successive invocations.  The code calls
`_fetch_price_yahoo` exactly once per symbol and `_fetch_price_google`
at most once, so only the head of each stream is ever consulted. -/
def fetchOneStreams (ys gs : List (Option ℚ)) : Option (ℚ × String) :=
  fetchOne ys.head?.join gs.head?.join

/-- Modelled from the spec: the per-source retry loop described in
section 4.1 (absent from `fetch_prices` in src/agents/price_fetcher.py):
invoke the source's fetch primitive up to `retryCount` times and return
the first usable price, if any. -/
def specTrySource (retryCount : Nat) (attempts : List (Option ℚ)) : Option ℚ :=
  ((attempts.take retryCount).filterMap id).head?

/-- Modelled from the spec: the validation predicate of section 8 and
claim C3 — a price of exactly `min_price` is accepted, prices outside
the configured bounds are rejected. -/
def specValidPrice (p : ℚ) : Prop :=
  PRICE_VALIDATION_min_price ≤ p ∧ p ≤ PRICE_VALIDATION_max_price

instance (p : ℚ) : Decidable (specValidPrice p) := by
  unfold specValidPrice; infer_instance

/-- Modelled from the spec: the fallback gate of section 4.1 — when the
first source fails, the second is consulted only if the
`enable_fallback_sources` flag is set. -/
def specFallback (enabled : Bool) (first second : Option ℚ) : Option (ℚ × String) :=
  match first with
  | some v => some (v, "yahoo")
  | none => if enabled then second.map (fun w => (w, "google")) else none

/-! ### Performance calculator, from src/agents/performance_calculator.py -/

/-- Round half to even to the nearest integer, the rounding used by
pandas `Series.round`. -/
def roundHalfEven (x : ℚ) : ℤ :=
  let f := x - ⌊x⌋
  if f < 1 / 2 then ⌊x⌋
  else if 1 / 2 < f then ⌊x⌋ + 1
  else if ⌊x⌋ % 2 = 0 then ⌊x⌋ else ⌊x⌋ + 1

/-- `Series.round 2`. -/
def round2 (x : ℚ) : ℚ := (roundHalfEven (x * 100) : ℚ) / 100

/-- A portfolio row after the numeric coercions of
`_calculate_performance`: `purchasePrice` and `purchaseQty` are coerced
with `errors=coerce` (a failed coercion is `none`), `additionalQty` is
additionally `fillna 0`. -/
structure Holding where
  owner : String
  portfolioName : String
  stockSymbol : String
  purchasePrice : Option ℚ
  purchaseQty : Option ℚ
  additionalQty : ℚ
deriving Repr, DecidableEq

/-- A row of `prices_df`: the price column is likewise coerced. -/
structure Quote where
  stockSymbol : String
  price : Option ℚ
deriving Repr, DecidableEq

/-- One output row of `_calculate_performance`. -/
structure PerfRow extends Holding where
  price : Option ℚ
  performance : Option ℚ
deriving Repr, DecidableEq

/-- The left merge on `stockSymbol`.  `prices_df` is built from a dict
keyed by symbol, so its symbols are unique and the merge is a
first-match lookup. -/
def lookupPrice (quotes : List Quote) (sym : String) : Option ℚ :=
  match quotes.find? (fun q => q.stockSymbol == sym) with
  | none => none
  | some q => q.price

/-- The masked performance assignment: rows where both `price` and
`purchasePrice` are non-null get
`round ((price - purchasePrice) / purchasePrice * 100) 2`; the rest keep
the initial `None`. -/
def perfValue (price purchasePrice : Option ℚ) : Option ℚ :=
  match price, purchasePrice with
  | some p, some c => some (round2 ((p - c) / c * 100))
  | _, _ => none

/-- Merge one holding with its quote and compute its performance. -/
def mergeRow (quotes : List Quote) (h : Holding) : PerfRow :=
  { h with
    price := lookupPrice quotes h.stockSymbol
    performance := perfValue (lookupPrice quotes h.stockSymbol) h.purchasePrice }

/-- The order used by
`sort_values by=performance ascending=False na_position=last`:
larger performance first, null performance after every non-null one. -/
def perfGE (a b : PerfRow) : Prop :=
  match a.performance, b.performance with
  | some x, some y => y ≤ x
  | some _, none => True
  | none, some _ => False
  | none, none => True

instance : DecidableRel perfGE := by
  intro a b; unfold perfGE
  rcases a.performance with _ | x <;> rcases b.performance with _ | y <;> simp <;> infer_instance

instance : IsTotal PerfRow perfGE := by
  constructor; intro a b; unfold perfGE
  rcases a.performance with _ | x <;> rcases b.performance with _ | y <;> simp [le_total]

instance : IsTrans PerfRow perfGE := by
  constructor; intro a b c hab hbc
  unfold perfGE at hab hbc ⊢
  rcases ha : a.performance with _ | x <;> rcases hb : b.performance with _ | y <;>
    rcases hc : c.performance with _ | z <;> simp_all
  exact le_trans hbc hab

/-- `_calculate_performance`: merge, compute the performance column,
sort by performance descending with nulls last.  (pandas uses an
unstable quicksort; the embedding uses insertion sort, which produces a
sequence with the same ordering guarantees — the only ones the code's
contract states.) -/
def calculatePerformance (holdings : List Holding) (quotes : List Quote) : List PerfRow :=
  List.insertionSort perfGE (holdings.map (mergeRow quotes))

/-! ### Price age

`portfolio_manager.py` consumes a `price_age_days` column of the
performance data, but no code under src/ produces it;
`_calculate_performance` in src/agents/performance_calculator.py has no
such computation.  It is therefore modelled from the spec. -/

/-- The state of one row's quote date: absent, present but failing to
parse, or a parsed calendar day (days are counted as integers). -/
inductive PriceDateField where
  | missing : PriceDateField
  | unparseable : PriceDateField
  | onDay (d : ℤ) : PriceDateField
deriving Repr, DecidableEq

/-- Modelled from the spec: the `price_age_days` computation, absent
from src/agents/performance_calculator.py.  Age is the number of days
from the quote date to today; a missing date defaults to today (age 0),
and a date that fails to parse defaults that row's age to 0. -/
def priceAgeDays (today : ℤ) : PriceDateField → ℤ
  | .missing => 0
  | .unparseable => 0
  | .onDay d => today - d

/-- Modelled from the spec: the age column is computed row by row, so
one row's parse failure leaves every other row's age intact. -/
def priceAgeColumn (today : ℤ) (dates : List PriceDateField) : List ℤ :=
  dates.map (priceAgeDays today)

/-! ### Portfolio valuator, from src/agents/portfolio_valuator.py -/

/-- A portfolio row as read by `_calculate_portfolio_values`: the caller
`calculate_portfolio_value` has coerced `purchaseQty` and filled
`additionalQty` with 0, and the loop converts both with `float`.  (Rows
whose quantity fails numeric coercion become NaN and are outside this
rational model.) -/
structure VRow where
  portfolioName : String
  owner : String
  stockSymbol : String
  purchaseQty : ℚ
  additionalQty : ℚ
deriving Repr, DecidableEq

/-- One record of the `portfoliovalue` table / one element of the
`portfolio_values` list. -/
structure Valuation where
  portfolioName : String
  owner : String
  value : ℚ
  valuationDate : ℤ
deriving Repr, DecidableEq

/-- The body of the inner loop of `_calculate_portfolio_values`: a
holding whose symbol is a key of the prices dict contributes
`price * (purchaseQty + additionalQty)`; one with no quote contributes
nothing. -/
def positionValue (prices : List (String × ℚ)) (r : VRow) : ℚ :=
  match prices.lookup r.stockSymbol with
  | some p => p * (r.purchaseQty + r.additionalQty)
  | none => 0

/-- `_calculate_portfolio_values`: group the rows by
(portfolioName, owner), accumulate each group's total value and round it
to 2 decimals.  (pandas `groupby` sorts the group keys; the embedding
keeps them in order of occurrence, which no claim observes.) -/
def calculatePortfolioValues (rows : List VRow) (prices : List (String × ℚ))
    (valuationDate : ℤ) : List Valuation :=
  ((rows.map fun r => (r.portfolioName, r.owner)).dedup).map fun k =>
    { portfolioName := k.1
      owner := k.2
      value := round2 ((rows.filter fun r => (r.portfolioName, r.owner) = k).foldl
        (fun acc r => acc + positionValue prices r) 0)
      valuationDate := valuationDate }

/-- The upsert key of `_update_portfolio_values`:
(portfolioName, owner, valuationDate). -/
def sameKey (a b : Valuation) : Bool :=
  a.portfolioName == b.portfolioName && a.owner == b.owner &&
    a.valuationDate == b.valuationDate

/-- One iteration of the loop of `_update_portfolio_values`: look up an
existing row with the same key (`SELECT ... fetchone`, the first match);
update its `value` in place when found, insert a new row otherwise. -/
def upsertValuation : List Valuation → Valuation → List Valuation
  | [], v => [v]
  | r :: rs, v =>
    if sameKey r v then { r with value := v.value } :: rs
    else r :: upsertValuation rs v

/-- `_update_portfolio_values`: upsert every computed valuation into the
table. -/
def updatePortfolioValues (table : List Valuation) (values : List Valuation) :
    List Valuation :=
  values.foldl upsertValuation table

/-! ### Helper lemmas -/

lemma mem_calculatePerformance {holdings : List Holding} {quotes : List Quote}
    {r : PerfRow} :
    r ∈ calculatePerformance holdings quotes ↔ ∃ h ∈ holdings, mergeRow quotes h = r := by
  unfold calculatePerformance
  rw [List.mem_insertionSort, List.mem_map]

lemma mergeRow_performance (quotes : List Quote) (h : Holding) :
    (mergeRow quotes h).performance
      = perfValue (mergeRow quotes h).price (mergeRow quotes h).purchasePrice := rfl

lemma perfValue_none_left (c : Option ℚ) : perfValue none c = none := by
  cases c <;> rfl

lemma perfValue_none_right (p : Option ℚ) : perfValue p none = none := by
  cases p <;> rfl

/-! ### C1 -/

/-- C1: every row of the calculator's output carries
`performance = round2 ((price - purchasePrice) / purchasePrice * 100)`
when both `price` and `purchasePrice` are non-null, and `performance =
none` otherwise; and every holding appears in the output, with its price
obtained by the left lookup on `stockSymbol`, a holding with no matching
quote keeping a null price and hence a null performance. -/
theorem performance_formula_and_left_join (holdings : List Holding) (quotes : List Quote) :
    (∀ r ∈ calculatePerformance holdings quotes,
      (∀ p c, r.price = some p → r.purchasePrice = some c →
        r.performance = some (round2 ((p - c) / c * 100))) ∧
      ((r.price = none ∨ r.purchasePrice = none) → r.performance = none)) ∧
    (∀ h ∈ holdings, ∃ r ∈ calculatePerformance holdings quotes,
      r.toHolding = h ∧ r.price = lookupPrice quotes h.stockSymbol ∧
      (r.price = none → r.performance = none)) := by
  constructor
  · intro r hr
    obtain ⟨h, hh, rfl⟩ := mem_calculatePerformance.mp hr
    constructor
    · intro p c hp hc
      rw [mergeRow_performance, hp, hc]
      rfl
    · intro hnone
      rcases hnone with hp | hc
      · rw [mergeRow_performance, hp, perfValue_none_left]
      · rw [mergeRow_performance, hc, perfValue_none_right]
  · intro h hh
    refine ⟨mergeRow quotes h, mem_calculatePerformance.mpr ⟨h, hh, rfl⟩, rfl, rfl, ?_⟩
    intro hp
    rw [mergeRow_performance, hp, perfValue_none_left]

/-- C1 witness: purchasePrice 100 with price 110 gives performance
10.00, and a holding with no quote appears with null performance. -/
theorem performance_formula_and_left_join_witness :
    (mergeRow [⟨"X", some 110⟩] ⟨"A", "P1", "X", some 100, some 10, 0⟩).performance
        = some (round2 ((110 - 100) / 100 * 100)) ∧
    round2 ((110 - 100) / 100 * 100) = 10 := by
  refine ⟨?_, by norm_num [round2, roundHalfEven]⟩
  exact ((performance_formula_and_left_join
      [⟨"A", "P1", "X", some 100, some 10, 0⟩] [⟨"X", some 110⟩]).1
    (mergeRow [⟨"X", some 110⟩] ⟨"A", "P1", "X", some 100, some 10, 0⟩)
    (mem_calculatePerformance.mpr ⟨_, by simp, rfl⟩)).1 110 100 rfl rfl

/-! ### C6 -/

/-- C6: the calculator's output is pairwise ordered by performance
descending with every null-performance row after every non-null one,
whatever the other fields hold, and it is a permutation of the merged
rows (one output row per holding). -/
theorem performance_sorted_desc_nulls_last (holdings : List Holding) (quotes : List Quote) :
    List.Pairwise (fun a b : PerfRow =>
      (a.performance = none → b.performance = none) ∧
      (∀ x y, a.performance = some x → b.performance = some y → y ≤ x))
      (calculatePerformance holdings quotes) ∧
    (calculatePerformance holdings quotes).Perm (holdings.map (mergeRow quotes)) := by
  constructor
  · refine (List.sorted_insertionSort perfGE _).imp ?_
    intro a b hab
    unfold perfGE at hab
    constructor
    · intro ha
      rcases hb : b.performance with _ | y
      · rfl
      · rw [ha, hb] at hab
        simp at hab
    · intro x y hx hy
      rw [hx, hy] at hab
      simpa using hab
  · exact List.perm_insertionSort perfGE _

/-- C6 witness: on a two-row input whose first holding has no quote, the
ordering statement holds for the computed output. -/
theorem performance_sorted_desc_nulls_last_witness :
    List.Pairwise (fun a b : PerfRow =>
      (a.performance = none → b.performance = none) ∧
      (∀ x y, a.performance = some x → b.performance = some y → y ≤ x))
      (calculatePerformance
        [⟨"A", "P1", "Y", some 100, some 5, 0⟩, ⟨"A", "P1", "X", some 100, some 10, 0⟩]
        [⟨"X", some 110⟩]) :=
  (performance_sorted_desc_nulls_last
    [⟨"A", "P1", "Y", some 100, some 5, 0⟩, ⟨"A", "P1", "X", some 100, some 10, 0⟩]
    [⟨"X", some 110⟩]).1

/-! ### C5 -/

lemma fetchPrices_cons (a : String) (tl : List String) (y g : String → Option ℚ) :
    fetchPrices (a :: tl) y g
      = match fetchOne (y a) (g a) with
        | some pr => (a, pr) :: fetchPrices tl y g
        | none => fetchPrices tl y g := by
  rw [fetchPrices, List.filterMap_cons]
  cases hfa : fetchOne (y a) (g a) <;> simp [hfa] <;> rfl

lemma fetchPrices_lookup (symbols : List String) (y g : String → Option ℚ) (s : String) :
    (fetchPrices symbols y g).lookup s
      = if s ∈ symbols then fetchOne (y s) (g s) else none := by
  induction symbols with
  | nil => simp [fetchPrices]
  | cons a tl ih =>
    rw [fetchPrices_cons]
    rcases hfa : fetchOne (y a) (g a) with _ | pr
    · rw [ih]
      by_cases hs : s = a
      · subst hs
        simp [hfa]
      · simp [List.mem_cons, hs]
    · by_cases hs : s = a
      · subst hs
        simp [List.lookup, hfa]
      · have hba : (s == a) = false := by simp [hs]
        simp [List.lookup, hba, ih, List.mem_cons, hs]

lemma fetchPrices_entries (symbols : List String) (y g : String → Option ℚ) :
    ∀ p ∈ fetchPrices symbols y g, p.1 ∈ symbols ∧ fetchOne (y p.1) (g p.1) = some p.2 := by
  intro p hp
  rw [fetchPrices] at hp
  obtain ⟨a, ha, hfa⟩ := List.mem_filterMap.mp hp
  rcases hmap : fetchOne (y a) (g a) with _ | pr
  · rw [hmap] at hfa
    simp at hfa
  · rw [hmap] at hfa
    simp at hfa
    subst hfa
    exact ⟨ha, hmap⟩

/-- C5: `fetch_prices` always yields a mapping: each requested symbol is
bound to the outcome of its source pipeline when that outcome exists and
is simply absent otherwise, no other key appears, and every entry is a
genuinely fetched quote — a symbol with no valid price is omitted rather
than reported as an error. -/
theorem fetch_returns_partial_mapping (symbols : List String) (y g : String → Option ℚ) :
    (∀ s, (fetchPrices symbols y g).lookup s
        = if s ∈ symbols then fetchOne (y s) (g s) else none) ∧
    (∀ p ∈ fetchPrices symbols y g, p.1 ∈ symbols ∧ fetchOne (y p.1) (g p.1) = some p.2) :=
  ⟨fun s => fetchPrices_lookup symbols y g s, fetchPrices_entries symbols y g⟩

/-- C5 witness: with Yahoo failing on "BAD" and both sources failing
nothing else, "BAD" is omitted while "GOOD" is mapped. -/
theorem fetch_returns_partial_mapping_witness :
    (fetchPrices ["GOOD", "BAD"] (fun s => if s = "GOOD" then some 110 else none)
        (fun _ => none)).lookup "BAD" = none := by
  rw [(fetch_returns_partial_mapping ["GOOD", "BAD"]
    (fun s => if s = "GOOD" then some 110 else none) (fun _ => none)).1 "BAD"]
  rfl

/-! ### C10 -/

/-- C10: a price of exactly 0 from the first source short-circuits both
ways: the Google fallback is never consulted (the fallback test is
`price is None`, which 0.0 fails), yet the acceptance test (`if price:`)
is also false, so the symbol silently disappears from the returned
mapping. -/
theorem zero_price_suppresses_fallback_and_omits
    (symbols : List String) (y g : String → Option ℚ) (s : String)
    (hy : y s = some 0) :
    (∀ w w' : Option ℚ, fetchOne (some 0) w = fetchOne (some 0) w') ∧
    fetchOne (some 0) (g s) = none ∧
    (fetchPrices symbols y g).lookup s = none := by
  refine ⟨fun w w' => rfl, rfl, ?_⟩
  rw [fetchPrices_lookup, hy]
  split <;> rfl

/-- C10 witness at a concrete symbol list and oracles. -/
theorem zero_price_suppresses_fallback_and_omits_witness :
    fetchOne (some 0) (some 55) = none ∧
    (fetchPrices ["X"] (fun _ => some 0) (fun _ => some 55)).lookup "X" = none := by
  have h := zero_price_suppresses_fallback_and_omits ["X"]
    (fun _ => some 0) (fun _ => some 55) "X" rfl
  exact ⟨h.2.1, h.2.2⟩

/-! ### C2 -/

/-- C2: `fetch_prices` never retries.  With the configured
`retry_count = 3` for Yahoo, an invocation stream that fails twice and
succeeds on the third attempt would yield a price under the spec's retry
loop, but the code consults only the head of each stream (it calls each
fetch primitive once), so the symbol gets nothing even with Google's
full configured attempt budget available. -/
theorem fetcher_ignores_retry_config :
    PRICE_SOURCES_yahoo_retry_count = 3 ∧
    specTrySource PRICE_SOURCES_yahoo_retry_count [none, none, some 110] = some 110 ∧
    fetchOneStreams [none, none, some 110]
      (List.replicate PRICE_SOURCES_google_retry_count none) = none ∧
    (∀ ys gs : List (Option ℚ),
      fetchOneStreams ys gs = fetchOne ys.head?.join gs.head?.join) :=
  ⟨rfl, rfl, rfl, fun _ _ => rfl⟩

/-! ### C3 -/

/-- C3: `fetch_prices` performs no bounds validation although
`validate_prices` is on: a price of −5, strictly below the configured
`min_price = 0`, is accepted into the mapping from Yahoo (no failure, no
fallback), while a price of exactly `min_price` — which the claim says
must be accepted — is dropped by the truthiness test, again with no
fallback even though Google has a valid price. -/
theorem fetcher_ignores_price_validation :
    FEATURE_FLAGS_validate_prices = true ∧
    ¬ specValidPrice (-5) ∧
    fetchOne (some (-5)) none = some (-5, "yahoo") ∧
    specValidPrice PRICE_VALIDATION_min_price ∧
    fetchOne (some PRICE_VALIDATION_min_price) (some 110) = none := by
  refine ⟨rfl, ?_, rfl, ?_, rfl⟩
  · unfold specValidPrice PRICE_VALIDATION_min_price PRICE_VALIDATION_max_price
    norm_num
  · unfold specValidPrice PRICE_VALIDATION_min_price PRICE_VALIDATION_max_price
    norm_num

/-! ### C4 -/

/-- C4: the fallback gate of the spec yields nothing with the flag
disabled and a failing first source, but the code never reads
`enable_fallback_sources` and unconditionally consults Google when Yahoo
returns None, labelling the result "google". -/
theorem fetcher_ignores_fallback_flag :
    specFallback false none (some 110) = none ∧
    fetchOne none (some 110) = some (110, "google") ∧
    FEATURE_FLAGS_enable_fallback_sources = true :=
  ⟨rfl, rfl, rfl⟩

/-! ### C7 -/

/-- C7: the age of a parsed quote date is the day difference to today, a
missing date and today's date give 0, a date that fails to parse gives 0
for that row only — the column is computed row by row, so one bad row
leaves every other row's age intact. -/
theorem price_age_days_from_spec (today : ℤ) (dates : List PriceDateField) :
    (∀ d : ℤ, priceAgeDays today (.onDay d) = today - d) ∧
    priceAgeDays today .missing = 0 ∧
    priceAgeDays today (.onDay today) = 0 ∧
    priceAgeDays today .unparseable = 0 ∧
    (∀ i : Nat, (priceAgeColumn today dates).get? i
        = (dates.get? i).map (priceAgeDays today)) := by
  refine ⟨fun d => rfl, rfl, by simp [priceAgeDays], rfl, fun i => ?_⟩
  simp [priceAgeColumn]

/-- C7 witness: today = 5, one parseable date (day 3), one unparseable
date, one missing date. -/
theorem price_age_days_from_spec_witness :
    priceAgeDays 5 (.onDay 3) = 5 - 3 ∧
    (priceAgeColumn 5 [.onDay 3, .unparseable, .missing]).get? 1 = some 0 := by
  have h := price_age_days_from_spec 5 [.onDay 3, .unparseable, .missing]
  refine ⟨h.1 3, ?_⟩
  rw [h.2.2.2.2 1]
  rfl

/-! ### C8 -/

lemma foldl_add_positionValue (prices : List (String × ℚ)) (l : List VRow) (init : ℚ) :
    l.foldl (fun acc r => acc + positionValue prices r) init
      = init + (l.map (positionValue prices)).sum := by
  induction l generalizing init with
  | nil => simp
  | cons r rs ih =>
    rw [List.foldl_cons, ih, List.map_cons, List.sum_cons]
    ring

/-- C8 counterexample: with one holding of quantity 1 and a fetched
price of 1/8, the group's sum of price × quantity is 1/8 = 0.125, but
the computed valuation value is the rounded 0.12 — the value is not the
plain sum. -/
theorem valuation_value_rounding_counterexample :
    (calculatePortfolioValues [⟨"P", "A", "X", 1, 0⟩] [("X", 1/8)] 0).map Valuation.value
        = [3/25] ∧
    (([⟨"P", "A", "X", 1, 0⟩] : List VRow).map (positionValue [("X", 1/8)])).sum = 1/8 ∧
    (3 : ℚ)/25 ≠ 1/8 := by
  have h8 : round2 ((1:ℚ)/8) = 3/25 := by
    rw [round2, show (1:ℚ)/8*100 = 25/2 by norm_num, roundHalfEven]
    norm_num
  refine ⟨?_, ?_, by norm_num⟩
  · simp [calculatePortfolioValues, positionValue, List.lookup, List.dedup]
    rw [show ((8:ℚ)⁻¹) = 1/8 from (one_div (8:ℚ)).symm, h8]
  · simp [positionValue, List.lookup]

/-- C8 amended: each (portfolioName, owner) group's valuation value is
the sum of price × (purchaseQty + additionalQty) over the group's
holdings — a holding with no fetched quote contributing 0 — rounded to 2
decimal places; every holding's group appears in the output. -/
theorem valuation_group_value_rounded (rows : List VRow) (prices : List (String × ℚ))
    (d : ℤ) :
    (∀ v ∈ calculatePortfolioValues rows prices d,
      v.value = round2 (((rows.filter fun r =>
          r.portfolioName = v.portfolioName ∧ r.owner = v.owner).map
        (positionValue prices)).sum) ∧
      v.valuationDate = d) ∧
    (∀ r ∈ rows, ∃ v ∈ calculatePortfolioValues rows prices d,
      v.portfolioName = r.portfolioName ∧ v.owner = r.owner) := by
  constructor
  · intro v hv
    obtain ⟨k, hk, rfl⟩ := List.mem_map.mp hv
    refine ⟨?_, rfl⟩
    show round2 _ = round2 _
    rw [foldl_add_positionValue, zero_add]
    congr 3
    apply List.filter_congr
    intro r _
    simp [Prod.ext_iff]
  · intro r hr
    have hk : (r.portfolioName, r.owner)
        ∈ (rows.map fun q => (q.portfolioName, q.owner)).dedup :=
      List.mem_dedup.mpr (List.mem_map_of_mem _ hr)
    exact ⟨_, List.mem_map_of_mem _ hk, rfl, rfl⟩

/-- C8 witness: the end-to-end scenario — one holding of quantity 10
with a quote of 120 values the group at 1200.00. -/
theorem valuation_group_value_rounded_witness :
    calculatePortfolioValues [⟨"P1", "A", "X", 10, 0⟩] [("X", 120)] 0
        = [⟨"P1", "A", 1200, 0⟩] ∧
    (⟨"P1", "A", (1200 : ℚ), 0⟩ : Valuation).value
        = round2 ((([⟨"P1", "A", "X", 10, 0⟩] : List VRow).filter fun r =>
            r.portfolioName = "P1" ∧ r.owner = "A").map
          (positionValue [("X", 120)])).sum := by
  have hc : calculatePortfolioValues [⟨"P1", "A", "X", 10, 0⟩] [("X", 120)] 0
      = [(⟨"P1", "A", 1200, 0⟩ : Valuation)] := by
    norm_num [calculatePortfolioValues, positionValue, List.lookup, List.dedup, round2,
      roundHalfEven]
  refine ⟨hc, ?_⟩
  exact ((valuation_group_value_rounded [⟨"P1", "A", "X", 10, 0⟩] [("X", 120)] 0).1
    (⟨"P1", "A", 1200, 0⟩ : Valuation) (by rw [hc]; exact List.mem_singleton_self _)).1

/-! ### C9 -/

lemma sameKey_set_value (r v w : Valuation) :
    sameKey { r with value := w.value } v = sameKey r v := rfl

lemma sameKey_refl (v : Valuation) : sameKey v v = true := by
  simp [sameKey]

lemma upsert_no_match (t : List Valuation) (v : Valuation)
    (h : ∀ r ∈ t, sameKey r v = false) : upsertValuation t v = t ++ [v] := by
  induction t with
  | nil => rfl
  | cons r rs ih =>
    rw [upsertValuation]
    simp [h r (List.mem_cons_self r rs),
      ih fun x hx => h x (List.mem_cons_of_mem r hx)]

lemma upsert_match_length (t : List Valuation) (v : Valuation)
    (h : ∃ r ∈ t, sameKey r v = true) :
    (upsertValuation t v).length = t.length := by
  induction t with
  | nil =>
    obtain ⟨r, hr, _⟩ := h
    exact absurd hr (List.not_mem_nil r)
  | cons r rs ih =>
    by_cases hk : sameKey r v = true
    · simp [upsertValuation, hk]
    · obtain ⟨q, hq, hqk⟩ := h
      rcases List.mem_cons.mp hq with rfl | hq'
      · exact absurd hqk hk
      · simp [upsertValuation, hk, ih ⟨q, hq', hqk⟩]

lemma upsert_find_value (t : List Valuation) (v : Valuation) :
    ∃ r, (upsertValuation t v).find? (fun q => sameKey q v) = some r ∧
      r.value = v.value := by
  induction t with
  | nil => exact ⟨v, by simp [upsertValuation, List.find?, sameKey_refl], rfl⟩
  | cons r rs ih =>
    by_cases hk : sameKey r v = true
    · refine ⟨{ r with value := v.value }, ?_, rfl⟩
      rw [upsertValuation, if_pos hk]
      simp [List.find?, sameKey_set_value, hk]
    · rw [upsertValuation, if_neg hk]
      obtain ⟨q, hq, hqv⟩ := ih
      refine ⟨q, ?_, hqv⟩
      simp [List.find?, hk, hq]

lemma upsert_idem (t : List Valuation) (v : Valuation) :
    upsertValuation (upsertValuation t v) v = upsertValuation t v := by
  induction t with
  | nil => simp [upsertValuation, sameKey_refl]
  | cons r rs ih =>
    by_cases hk : sameKey r v = true
    · rw [upsertValuation, if_pos hk, upsertValuation,
        if_pos (by rw [sameKey_set_value]; exact hk)]
    · have h1 : upsertValuation (r :: rs) v = r :: upsertValuation rs v := by
        rw [upsertValuation, if_neg hk]
      rw [h1, upsertValuation, if_neg hk, ih]

/-- C9: persisting a valuation is an upsert on
(portfolioName, owner, valuationDate): with no existing row for the key
the row is appended, with an existing row the table keeps its length and
the first row at the key carries the new value, and upserting the same
row twice equals upserting it once — no duplicate, same final value. -/
theorem valuation_upsert_idempotent (t : List Valuation) (v : Valuation) :
    ((∀ r ∈ t, sameKey r v = false) → upsertValuation t v = t ++ [v]) ∧
    ((∃ r ∈ t, sameKey r v = true) → (upsertValuation t v).length = t.length) ∧
    (∃ r, (upsertValuation t v).find? (fun q => sameKey q v) = some r ∧
      r.value = v.value) ∧
    upsertValuation (upsertValuation t v) v = upsertValuation t v ∧
    updatePortfolioValues (updatePortfolioValues t [v]) [v]
      = updatePortfolioValues t [v] :=
  ⟨upsert_no_match t v, upsert_match_length t v, upsert_find_value t v,
    upsert_idem t v, upsert_idem t v⟩

/-- C9 witness: inserting into an empty table, then updating a table
that already has the key, and the run-twice equation at those inputs. -/
theorem valuation_upsert_idempotent_witness :
    upsertValuation [] (⟨"P1", "A", 1200, 0⟩ : Valuation) = [] ++ [⟨"P1", "A", 1200, 0⟩] ∧
    (upsertValuation [(⟨"P1", "A", 100, 0⟩ : Valuation)] ⟨"P1", "A", 1200, 0⟩).length
      = [(⟨"P1", "A", 100, 0⟩ : Valuation)].length ∧
    updatePortfolioValues
        (updatePortfolioValues [(⟨"P1", "A", 100, 0⟩ : Valuation)] [⟨"P1", "A", 1200, 0⟩])
        [⟨"P1", "A", 1200, 0⟩]
      = updatePortfolioValues [(⟨"P1", "A", 100, 0⟩ : Valuation)] [⟨"P1", "A", 1200, 0⟩] := by
  have h1 := valuation_upsert_idempotent [] (⟨"P1", "A", 1200, 0⟩ : Valuation)
  have h2 := valuation_upsert_idempotent [(⟨"P1", "A", 100, 0⟩ : Valuation)]
    ⟨"P1", "A", 1200, 0⟩
  exact ⟨h1.1 (by simp), h2.2.1 ⟨⟨"P1", "A", 100, 0⟩, List.mem_singleton_self _, rfl⟩,
    h2.2.2.2.2⟩

end PortfolioAI
